import Mathlib

/-!
# Azure::Core::Uuid

A shallow embedding of `sdk/core/azure-core/inc/azure/core/uuid.hpp`:
the 16-byte identifier, `Uuid::CreateUuid` on each of its three preprocessor
branches, and `Uuid::ToString` with the `snprintf` conversion it uses.

Bytes are `Fin 256`; every C++ expression is evaluated on natural numbers
(the integer promotion of `uint8_t` operands) and reduced `% 256` where the
result is stored back into a `uint8_t`.
-/

namespace Azure.Core

/-! ## Data model -/

/-- An unsigned 8-bit value. -/
abbrev uint8_t : Type := Fin 256

/-- The constant `static constexpr size_t UuidSize = 16;`. -/
abbrev UuidSize : Nat := 16

/-- A local `uint8_t uuid[UuidSize]` array. -/
abbrev Buffer : Type := Fin UuidSize → uint8_t

/-- Storing the value of an `int` expression into a `uint8_t`. -/
def toU8 (n : Nat) : uint8_t := ⟨n % 256, Nat.mod_lt n (by decide)⟩

/-- The constant `static constexpr uint8_t ReservedNCS = 0x80;`. -/
def ReservedNCS : uint8_t := 0x80

/-- The constant `static constexpr uint8_t ReservedRFC4122 = 0x40;`. -/
def ReservedRFC4122 : uint8_t := 0x40

/-- The constant `static constexpr uint8_t ReservedMicrosoft = 0x20;`. -/
def ReservedMicrosoft : uint8_t := 0x20

/-- The constant `static constexpr uint8_t ReservedFuture = 0x00;`. -/
def ReservedFuture : uint8_t := 0x00

/-- The class `Uuid`: its only data member is `uint8_t m_uuid[UuidSize]`. -/
structure Uuid where
  m_uuid : Buffer
deriving DecidableEq

/-- The private constructor `Uuid(uint8_t const uuid[UuidSize])`:
`std::memcpy(m_uuid, uuid, UuidSize)` copies all sixteen bytes. -/
def Uuid.ctor (uuid : Buffer) : Uuid := ⟨fun i => uuid i⟩

/-- What a call can do: hand a value back to its caller, or end the process
through `abort()`. -/
inductive Outcome (α : Type) where
  | returned (value : α)
  | aborted
deriving DecidableEq

/-- Whether control comes back to the caller. -/
def Outcome.returns {α : Type} : Outcome α → Bool
  | .returned _ => true
  | .aborted => false

/-! ## The entropy backends -/

/-- The order in which the four bytes of a `uint32_t` lie in memory. -/
inductive ByteOrder where
  | little
  | big
deriving DecidableEq

/-- Byte `j` (in memory order) of the 32-bit value `x`. -/
def byteOfU32 (order : ByteOrder) (x : Nat) (j : Nat) : uint8_t :=
  match order with
  | .little => toU8 (x / 2 ^ (8 * j))
  | .big => toU8 (x / 2 ^ (8 * (3 - j)))

/-- The object representation of the `uint32_t` value `x`: its four bytes in
memory order. -/
def bytesOfU32 (order : ByteOrder) (x : Nat) : List uint8_t :=
  [byteOfU32 order x 0, byteOfU32 order x 1, byteOfU32 order x 2, byteOfU32 order x 3]

/-- The state of the Windows fill: the buffer, the number of calls of `rd()`
made so far, and the index of every byte stored into the buffer so far, in
the order of the stores. -/
structure FillState where
  uuid : Buffer
  draws : Nat
  stores : List Nat

/-- One byte store `uuid[p] = v`. -/
def FillState.store (s : FillState) (p : Nat) (v : uint8_t) : FillState :=
  { uuid := fun q => if q.val = p then v else s.uuid q
    draws := s.draws
    stores := s.stores ++ [p] }

/-- The call `std::memcpy(uuid + i, src, n)` for the `n` bytes `src`: they are
stored one after the other from index `i` on. -/
def memcpy (s : FillState) (i : Nat) : List uint8_t → FillState
  | [] => s
  | v :: rest => memcpy (s.store i v) (i + 1) rest

/-- The call `std::memcpy(uuid + i, &x, 4)` for a `uint32_t x`. -/
def memcpyU32 (order : ByteOrder) (s : FillState) (i : Nat) (x : Nat) : FillState :=
  memcpy s i (bytesOfU32 order x)

/-- The Windows fill loop
`for (size_t i = 0; i < UuidSize; i += 4) { const uint32_t x = rd(); memcpy(uuid + i, &x, 4); }`
started at index `i` in the state `s`; `rd n` is the value of the `n`-th call
of `rd()`.  The result is the state when the loop exits. -/
def fillLoop (order : ByteOrder) (rd : Nat → Nat) (i : Nat) (s : FillState) : FillState :=
  if i < UuidSize then
    fillLoop order rd (i + 4)
      (memcpyU32 order { s with draws := s.draws + 1 } i (rd s.draws % 2 ^ 32))
  else
    s
termination_by UuidSize - i
decreasing_by omega

/-- The build configuration and what the platform's random facility does
during one call of `CreateUuid`. -/
inductive Env where
  /-- Built with `AZ_PLATFORM_WINDOWS`: the memory order of the machine and the values
  that successive calls of `rd()` yield (every call is taken to yield one). -/
  | windows (order : ByteOrder) (rd : Nat → Nat)
  /-- Built with `AZ_PLATFORM_POSIX` (and not Windows): the value `RAND_bytes` returns and
  the contents of the buffer when it comes back. -/
  | posix (ret : Int) (written : Buffer)
  /-- Neither macro is defined. -/
  | unconfigured

/-! ## CreateUuid -/

/-- The initial buffer `uint8_t uuid[UuidSize] = {};`. -/
def zeroBuffer : Buffer := fun _ => 0

/-- The constant `constexpr uint8_t version = 4;`. -/
def version : uint8_t := 4

/-- Lines 104-109 of `CreateUuid`:
`uuid[8] = (uuid[8] | ReservedRFC4122) & 0x7F;` then
`uuid[6] = (uuid[6] & 0xF) | (version << 4);`. -/
def patch (uuid : Buffer) : Buffer :=
  let uuid1 := Function.update uuid 8 (toU8 (((uuid 8).val ||| ReservedRFC4122.val) &&& 0x7F))
  Function.update uuid1 6 (toU8 (((uuid1 6).val &&& 0xF) ||| (version.val <<< 4)))

/-- The tail of `CreateUuid` once the buffer is filled: patch, then
`return Uuid(uuid);`. -/
def finishUuid (uuid : Buffer) : Outcome Uuid :=
  .returned (Uuid.ctor (patch uuid))

/-- The function `static Uuid CreateUuid()`. -/
def CreateUuid : Env → Outcome Uuid
  | .windows order rd =>
    finishUuid (fillLoop order rd 0 { uuid := zeroBuffer, draws := 0, stores := [] }).uuid
  | .posix ret written => if ret ≤ 0 then .aborted else finishUuid written
  | .unconfigured => .aborted

/-! ## ToString -/

/-- The digit character of a value below sixteen, as `%x` prints it. -/
def hexDigitChar (d : Nat) : Char :=
  if d < 10 then Char.ofNat (48 + d) else Char.ofNat (87 + d)

/-- The hexadecimal digits of `n`, most significant first, prepended to `acc`;
no digit at all for zero. -/
def hexDigitsAux : Nat → Nat → List Char → List Char
  | 0, _, acc => acc
  | fuel + 1, n, acc =>
    if n = 0 then acc else hexDigitsAux fuel (n / 16) (hexDigitChar (n % 16) :: acc)

/-- The conversion `%W.Px` of `printf` applied to the unsigned value `v`:
at least `prec` digits (zeros are put in front), then at least `width`
characters (blanks are put in front). -/
def formatHex (width prec : Nat) (v : Nat) : List Char :=
  let digits := hexDigitsAux (v + 1) v []
  let padded := List.replicate (prec - digits.length) '0' ++ digits
  List.replicate (width - padded.length) ' ' ++ padded

/-- The text that the format string of `ToString`,
`"%2.2x%2.2x%2.2x%2.2x-%2.2x%2.2x-%2.2x%2.2x-%2.2x%2.2x-%2.2x%2.2x%2.2x%2.2x%2.2x%2.2x"`,
produces for the sixteen arguments `m_uuid[0]` ... `m_uuid[15]`. -/
def formatUuid (m : Buffer) : List Char :=
  formatHex 2 2 (m 0).val ++ formatHex 2 2 (m 1).val ++ formatHex 2 2 (m 2).val
    ++ formatHex 2 2 (m 3).val ++ ['-']
    ++ formatHex 2 2 (m 4).val ++ formatHex 2 2 (m 5).val ++ ['-']
    ++ formatHex 2 2 (m 6).val ++ formatHex 2 2 (m 7).val ++ ['-']
    ++ formatHex 2 2 (m 8).val ++ formatHex 2 2 (m 9).val ++ ['-']
    ++ formatHex 2 2 (m 10).val ++ formatHex 2 2 (m 11).val ++ formatHex 2 2 (m 12).val
    ++ formatHex 2 2 (m 13).val ++ formatHex 2 2 (m 14).val ++ formatHex 2 2 (m 15).val

/-- The call `std::snprintf(s, size, ...)`: of the formatted text, at most `size - 1`
characters are stored (a terminating zero follows them). -/
def snprintf (size : Nat) (text : List Char) : List Char :=
  text.take (size - 1)

/-- The member `std::string ToString()`, not const: the string it returns,
paired with the object as the call leaves it. -/
def Uuid.ToString (self : Uuid) : String × Uuid :=
  let s := snprintf 37 (formatUuid self.m_uuid)
  (String.mk s, self)

/-! ## Vocabulary of the properties -/

/-- The sixteen lowercase hexadecimal digit characters, in order of value. -/
def lowerHexDigits : List Char := "0123456789abcdef".toList

/-- Written after the specification, not after the code: the two-character,
zero-padded, lowercase hexadecimal rendering of a byte, high nibble first. -/
def hex2 (x : uint8_t) : List Char :=
  [lowerHexDigits.getD (x.val / 16) '0', lowerHexDigits.getD (x.val % 16) '0']

/-- The buffer holding the listed byte values (zero beyond the list). -/
def bufferOfList (l : List Nat) : Buffer := fun i => toU8 (l.getD i.val 0)

/-- The raw entropy `00 11 22 33 44 55 66 77 88 99 aa bb cc dd ee ff`. -/
def exampleFill : Buffer :=
  bufferOfList [0x00, 0x11, 0x22, 0x33, 0x44, 0x55, 0x66, 0x77,
                0x88, 0x99, 0xaa, 0xbb, 0xcc, 0xdd, 0xee, 0xff]

/-- Four draws of `rd()` whose little-endian bytes are `exampleFill`. -/
def exampleDraws : Nat → Nat
  | 0 => 0x33221100
  | 1 => 0x77665544
  | 2 => 0xbbaa9988
  | _ => 0xffeeddcc

/-- The error type of the specification's `Result<Identifier, EntropyError>`. -/
inductive EntropyError where
  | SourceFailed
deriving DecidableEq

/-- What the caller of `CreateUuid` receives, read in the result type of the
specification: the Uuid when one is returned, and nothing at all when the
process was aborted (the C++ signature has no error value). -/
def Outcome.toCaller : Outcome Uuid → Option (Except EntropyError Uuid)
  | .returned u => some (.ok u)
  | .aborted => none

/-- Whether one of `AZ_PLATFORM_WINDOWS`, `AZ_PLATFORM_POSIX` is defined. -/
def Env.configured : Env → Bool
  | .windows _ _ => true
  | .posix _ _ => true
  | .unconfigured => false

/-- A sixteen-byte value with version nibble `0100` in byte 6 and variant bits
`10` in byte 8: `00000000-0000-4000-8000-000000000000`. -/
def rfc4122Value : Buffer :=
  bufferOfList [0, 0, 0, 0, 0, 0, 0x40, 0, 0x80, 0, 0, 0, 0, 0, 0, 0]

/-- Written after the specification: `byte8 = (byte8 AND 0x7F) OR 0x40`. -/
def specVariantPatch (byte8 : uint8_t) : uint8_t :=
  toU8 ((byte8.val &&& 0x7F) ||| 0x40)

/-- The contents of `uuid` when control reaches the patch at line 104: the
entropy fill of the call. -/
def Env.filled : Env → Buffer
  | .windows order rd =>
    (fillLoop order rd 0 { uuid := zeroBuffer, draws := 0, stores := [] }).uuid
  | .posix _ written => written
  | .unconfigured => zeroBuffer

/-! ## Lemmas on the patch and on the conversion -/

theorem patch_eight (b : Buffer) :
    patch b 8 = toU8 (((b 8).val ||| ReservedRFC4122.val) &&& 0x7F) := by
  simp [patch, Function.update]

theorem patch_six (b : Buffer) :
    patch b 6 = toU8 (((b 6).val &&& 0xF) ||| (version.val <<< 4)) := by
  simp [patch, Function.update]

theorem patch_other (b : Buffer) (i : Fin UuidSize) (h6 : i ≠ 6) (h8 : i ≠ 8) :
    patch b i = b i := by
  simp [patch, Function.update, h6, h8]

set_option maxRecDepth 100000 in
theorem formatHex_byte : ∀ x : uint8_t,
    formatHex 2 2 x.val = [hexDigitChar (x.val / 16), hexDigitChar (x.val % 16)] := by
  decide

theorem hexDigitChar_mem : ∀ d : Fin 16, hexDigitChar d.val ∈ lowerHexDigits := by
  decide

theorem hexDigitChar_hi (x : uint8_t) : hexDigitChar (x.val / 16) ∈ lowerHexDigits :=
  hexDigitChar_mem ⟨x.val / 16, by omega⟩

theorem hexDigitChar_lo (x : uint8_t) : hexDigitChar (x.val % 16) ∈ lowerHexDigits :=
  hexDigitChar_mem ⟨x.val % 16, by omega⟩

theorem formatUuid_eq (m : Buffer) :
    formatUuid m =
      [hexDigitChar ((m 0).val / 16), hexDigitChar ((m 0).val % 16),
       hexDigitChar ((m 1).val / 16), hexDigitChar ((m 1).val % 16),
       hexDigitChar ((m 2).val / 16), hexDigitChar ((m 2).val % 16),
       hexDigitChar ((m 3).val / 16), hexDigitChar ((m 3).val % 16), '-',
       hexDigitChar ((m 4).val / 16), hexDigitChar ((m 4).val % 16),
       hexDigitChar ((m 5).val / 16), hexDigitChar ((m 5).val % 16), '-',
       hexDigitChar ((m 6).val / 16), hexDigitChar ((m 6).val % 16),
       hexDigitChar ((m 7).val / 16), hexDigitChar ((m 7).val % 16), '-',
       hexDigitChar ((m 8).val / 16), hexDigitChar ((m 8).val % 16),
       hexDigitChar ((m 9).val / 16), hexDigitChar ((m 9).val % 16), '-',
       hexDigitChar ((m 10).val / 16), hexDigitChar ((m 10).val % 16),
       hexDigitChar ((m 11).val / 16), hexDigitChar ((m 11).val % 16),
       hexDigitChar ((m 12).val / 16), hexDigitChar ((m 12).val % 16),
       hexDigitChar ((m 13).val / 16), hexDigitChar ((m 13).val % 16),
       hexDigitChar ((m 14).val / 16), hexDigitChar ((m 14).val % 16),
       hexDigitChar ((m 15).val / 16), hexDigitChar ((m 15).val % 16)] := by
  simp only [formatUuid, formatHex_byte, List.cons_append, List.nil_append]

theorem formatUuid_length (m : Buffer) : (formatUuid m).length = 36 := by
  rw [formatUuid_eq]; simp

theorem ToString_fst (u : Uuid) : u.ToString.1 = String.mk (formatUuid u.m_uuid) := by
  have h := formatUuid_length u.m_uuid
  simp only [Uuid.ToString, snprintf]
  rw [List.take_of_length_le (by omega)]

theorem fillLoop_from_zero (order : ByteOrder) (rd : Nat → Nat) (b : Buffer) :
    fillLoop order rd 0 { uuid := b, draws := 0, stores := [] } =
      { uuid := fun p => byteOfU32 order (rd (p.val / 4) % 2 ^ 32) (p.val % 4)
        draws := 4
        stores := [0, 1, 2, 3, 4, 5, 6, 7, 8, 9, 10, 11, 12, 13, 14, 15] } := by
  rw [fillLoop, if_pos (by decide), fillLoop, if_pos (by decide), fillLoop, if_pos (by decide),
    fillLoop, if_pos (by decide), fillLoop, if_neg (by decide)]
  simp only [memcpyU32, bytesOfU32, memcpy, FillState.store]
  refine congrArg₂ (fun u l => FillState.mk u 4 l) ?_ ?_
  · funext p
    fin_cases p <;> simp
  · simp

set_option maxRecDepth 100000 in
theorem formatHex_eq_hex2 : ∀ x : uint8_t, formatHex 2 2 x.val = hex2 x := by
  decide

set_option maxRecDepth 100000 in
theorem variant_byte_bits : ∀ x : uint8_t,
    (toU8 ((x.val ||| ReservedRFC4122.val) &&& 0x7F)).val &&& 0xC0 = 0x40 := by
  decide

set_option maxRecDepth 100000 in
theorem version_byte_bits : ∀ x : uint8_t,
    (toU8 ((x.val &&& 0xF) ||| (version.val <<< 4))).val >>> 4 = 4 := by
  decide

set_option maxRecDepth 100000 in
theorem variant_byte_char : ∀ x : uint8_t,
    hexDigitChar ((toU8 ((x.val ||| ReservedRFC4122.val) &&& 0x7F)).val / 16)
      ∈ ['4', '5', '6', '7'] := by
  decide

theorem fillLoop_exampleDraws :
    (fillLoop .little exampleDraws 0 { uuid := zeroBuffer, draws := 0, stores := [] }).uuid
      = exampleFill := by
  rw [fillLoop_from_zero]; decide

set_option maxRecDepth 100000 in
theorem variant_byte_val : ∀ x : uint8_t,
    (toU8 ((x.val ||| ReservedRFC4122.val) &&& 0x7F)).val = 64 + x.val % 64 := by
  decide

set_option maxRecDepth 100000 in
theorem version_byte_val : ∀ x : uint8_t,
    (toU8 ((x.val &&& 0xF) ||| (version.val <<< 4))).val = 64 + x.val % 16 := by
  decide

set_option maxRecDepth 100000 in
theorem variant_bits_iff : ∀ x : uint8_t, x.val &&& 0xC0 = 0x40 ↔ x.val / 64 = 1 := by
  decide

set_option maxRecDepth 100000 in
theorem version_bits_iff : ∀ x : uint8_t, x.val >>> 4 = 4 ↔ x.val / 16 = 4 := by
  decide

theorem patch_eq_iff (e v : Buffer) :
    patch e = v ↔
      (∀ i : Fin UuidSize, i ≠ 6 → i ≠ 8 → e i = v i)
      ∧ (v 6).val = 64 + (e 6).val % 16 ∧ (v 8).val = 64 + (e 8).val % 64 := by
  constructor
  · intro h
    subst h
    refine ⟨fun i h6 h8 => (patch_other e i h6 h8).symm, ?_, ?_⟩
    · rw [patch_six]; exact version_byte_val _
    · rw [patch_eight]; exact variant_byte_val _
  · rintro ⟨ho, h6, h8⟩
    funext i
    by_cases hi6 : i = 6
    · subst hi6
      rw [patch_six]
      apply Fin.ext
      rw [version_byte_val, h6]
    · by_cases hi8 : i = 8
      · subst hi8
        rw [patch_eight]
        apply Fin.ext
        rw [variant_byte_val, h8]
      · rw [patch_other e i hi6 hi8]
        exact ho i hi6 hi8

/-- Every value with version nibble `0100` in byte 6 and top bits `01` in
byte 8 is the patch of exactly 64 entropy buffers: one for each high nibble
of byte 6 and each top-bit pair of byte 8. -/
theorem patch_fiber_card (v : Buffer)
    (h6 : (v 6).val >>> 4 = 4) (h8 : (v 8).val &&& 0xC0 = 0x40) :
    Fintype.card {e : Buffer // patch e = v} = 64 := by
  have d6 : (v 6).val / 16 = 4 := (version_bits_iff _).mp h6
  have d8 : (v 8).val / 64 = 1 := (variant_bits_iff _).mp h8
  let φ : {e : Buffer // patch e = v} ≃ Fin 16 × Fin 4 :=
    { toFun := fun e => (⟨(e.1 6).val / 16, by omega⟩, ⟨(e.1 8).val / 64, by omega⟩)
      invFun := fun p =>
        ⟨Function.update
            (Function.update v 6 ⟨16 * p.1.val + (v 6).val % 16, by omega⟩)
            8 ⟨64 * p.2.val + (v 8).val % 64, by omega⟩,
          by
            rw [patch_eq_iff]
            refine ⟨?_, ?_, ?_⟩
            · intro i hi6 hi8
              simp [Function.update, hi6, hi8]
            · simp [Function.update]
              omega
            · simp [Function.update]
              omega⟩
      left_inv := by
        rintro ⟨e, he⟩
        obtain ⟨ho, e6, e8⟩ := (patch_eq_iff e v).mp he
        apply Subtype.ext
        funext i
        by_cases hi8 : i = 8
        · subst hi8
          apply Fin.ext
          simp [Function.update]
          omega
        · by_cases hi6 : i = 6
          · subst hi6
            apply Fin.ext
            simp [Function.update]
            omega
          · simp [Function.update, hi6, hi8]
            exact (ho i hi6 hi8).symm
      right_inv := by
        rintro ⟨a, b⟩
        apply Prod.ext
        · apply Fin.ext
          simp [Function.update]
          omega
        · apply Fin.ext
          simp [Function.update]
          omega }
  rw [Fintype.card_congr φ]
  simp

/-- The values that some entropy buffer patches to are exactly those with
version nibble `0100` in byte 6 and top bits `01` in byte 8. -/
theorem patch_range (v : Buffer) :
    (∃ e : Buffer, patch e = v) ↔ (v 6).val >>> 4 = 4 ∧ (v 8).val &&& 0xC0 = 0x40 := by
  constructor
  · rintro ⟨e, rfl⟩
    rw [patch_six, patch_eight]
    exact ⟨version_byte_bits _, variant_byte_bits _⟩
  · rintro ⟨h6, h8⟩
    have hc := patch_fiber_card v h6 h8
    have hpos : 0 < Fintype.card {e : Buffer // patch e = v} := by omega
    obtain ⟨e⟩ := Fintype.card_pos_iff.mp hpos
    exact ⟨e.1, e.2⟩

theorem CreateUuid_returned (env : Env) (u : Uuid) (h : CreateUuid env = .returned u) :
    ∃ b : Buffer, u = Uuid.ctor (patch b) := by
  cases env with
  | windows order rd =>
    refine ⟨(fillLoop order rd 0 { uuid := zeroBuffer, draws := 0, stores := [] }).uuid, ?_⟩
    simp only [CreateUuid, finishUuid, Outcome.returned.injEq] at h
    exact h.symm
  | posix ret written =>
    refine ⟨written, ?_⟩
    simp only [CreateUuid, finishUuid] at h
    split at h
    · cases h
    · simp only [Outcome.returned.injEq] at h
      exact h.symm
  | unconfigured => simp [CreateUuid] at h

theorem byteOfU32_little (x j : Nat) :
    (byteOfU32 .little x j).val = x / 2 ^ (8 * j) % 256 := rfl

theorem byteOfU32_big (x j : Nat) :
    (byteOfU32 .big x j).val = x / 2 ^ (8 * (3 - j)) % 256 := rfl

theorem u32_bytes_little (x : Nat) (h : x < 2 ^ 32) :
    x / 2 ^ (8 * 0) % 256 + 2 ^ 8 * (x / 2 ^ (8 * 1) % 256)
      + 2 ^ 16 * (x / 2 ^ (8 * 2) % 256) + 2 ^ 24 * (x / 2 ^ (8 * 3) % 256) = x := by
  norm_num at h ⊢
  omega

theorem u32_bytes_big (x : Nat) (h : x < 2 ^ 32) :
    2 ^ 24 * (x / 2 ^ (8 * (3 - 0)) % 256) + 2 ^ 16 * (x / 2 ^ (8 * (3 - 1)) % 256)
      + 2 ^ 8 * (x / 2 ^ (8 * (3 - 2)) % 256) + x / 2 ^ (8 * (3 - 3)) % 256 = x := by
  norm_num at h ⊢
  omega

theorem hexDigitChar_inj : ∀ a b : Fin 16, hexDigitChar a.val = hexDigitChar b.val → a = b := by
  decide

theorem byte_of_digits (x y : uint8_t)
    (hhi : hexDigitChar (x.val / 16) = hexDigitChar (y.val / 16))
    (hlo : hexDigitChar (x.val % 16) = hexDigitChar (y.val % 16)) : x = y := by
  have h1 := hexDigitChar_inj ⟨x.val / 16, by omega⟩ ⟨y.val / 16, by omega⟩ hhi
  have h2 := hexDigitChar_inj ⟨x.val % 16, by omega⟩ ⟨y.val % 16, by omega⟩ hlo
  simp only [Fin.mk.injEq] at h1 h2
  apply Fin.ext
  omega

theorem formatUuid_inj (a b : Buffer) (h : formatUuid a = formatUuid b) : a = b := by
  rw [formatUuid_eq, formatUuid_eq] at h
  simp only [List.cons.injEq, and_true, true_and] at h
  obtain ⟨h0, l0, h1, l1, h2, l2, h3, l3, h4, l4, h5, l5, h6, l6, h7, l7,
    h8, l8, h9, l9, h10, l10, h11, l11, h12, l12, h13, l13, h14, l14, h15, l15⟩ := h
  funext i
  fin_cases i
  · exact byte_of_digits _ _ h0 l0
  · exact byte_of_digits _ _ h1 l1
  · exact byte_of_digits _ _ h2 l2
  · exact byte_of_digits _ _ h3 l3
  · exact byte_of_digits _ _ h4 l4
  · exact byte_of_digits _ _ h5 l5
  · exact byte_of_digits _ _ h6 l6
  · exact byte_of_digits _ _ h7 l7
  · exact byte_of_digits _ _ h8 l8
  · exact byte_of_digits _ _ h9 l9
  · exact byte_of_digits _ _ h10 l10
  · exact byte_of_digits _ _ h11 l11
  · exact byte_of_digits _ _ h12 l12
  · exact byte_of_digits _ _ h13 l13
  · exact byte_of_digits _ _ h14 l14
  · exact byte_of_digits _ _ h15 l15

theorem patch_idem (b : Buffer) : patch (patch b) = patch b := by
  rw [patch_eq_iff]
  refine ⟨fun _ _ _ => rfl, ?_, ?_⟩
  · have h := version_byte_val (b 6)
    rw [← patch_six] at h
    omega
  · have h := variant_byte_val (b 8)
    rw [← patch_eight] at h
    omega

theorem patch_fixed_iff (b : Buffer) :
    patch b = b ↔ (b 6).val >>> 4 = 4 ∧ (b 8).val &&& 0xC0 = 0x40 := by
  rw [patch_eq_iff, version_bits_iff, variant_bits_iff]
  constructor
  · rintro ⟨_, h6, h8⟩
    omega
  · rintro ⟨h6, h8⟩
    refine ⟨fun _ _ _ => rfl, ?_, ?_⟩ <;> omega

set_option maxRecDepth 100000 in
theorem version_byte_low : ∀ x : uint8_t,
    (toU8 ((x.val &&& 0xF) ||| (version.val <<< 4))).val &&& 0xF = x.val &&& 0xF := by
  decide

set_option maxRecDepth 100000 in
theorem variant_byte_low : ∀ x : uint8_t,
    (toU8 ((x.val ||| ReservedRFC4122.val) &&& 0x7F)).val &&& 0x3F = x.val &&& 0x3F := by
  decide

set_option maxRecDepth 100000 in
theorem variant_byte_eq_spec : ∀ x : uint8_t,
    toU8 ((x.val ||| ReservedRFC4122.val) &&& 0x7F) = specVariantPatch x := by
  decide

set_option maxRecDepth 100000 in
theorem specVariantPatch_bits : ∀ x : uint8_t,
    (specVariantPatch x).val &&& 0x80 = 0
    ∧ (specVariantPatch x).val &&& 0x40 = 0x40
    ∧ (specVariantPatch x).val &&& 0x3F = x.val &&& 0x3F := by
  decide

theorem CreateUuid_returned_filled (env : Env) (u : Uuid) (h : CreateUuid env = .returned u) :
    u.m_uuid = patch env.filled := by
  cases env with
  | windows order rd =>
    simp only [CreateUuid, finishUuid, Outcome.returned.injEq] at h
    rw [← h]; rfl
  | posix ret written =>
    simp only [CreateUuid, finishUuid] at h
    split at h
    · cases h
    · simp only [Outcome.returned.injEq] at h
      rw [← h]; rfl
  | unconfigured => simp [CreateUuid] at h

/-! ## The claims -/

/-- C1, at the failing input.  With `RAND_bytes` successful and the buffer
left all zero, `CreateUuid` returns a Uuid whose byte 6 has high nibble 4
but whose byte 8 is `0x40`: its top two bits are `01`, not `10`.  The same
holds for every fill: the patched byte 8 always has `byte8 & 0xC0 == 0x40`. -/
theorem CreateUuid_variant_bits_zero_fill :
    (∃ u, CreateUuid (.posix 1 zeroBuffer) = .returned u
      ∧ (u.m_uuid 6).val >>> 4 = 4
      ∧ u.m_uuid 8 = 0x40
      ∧ (u.m_uuid 8).val &&& 0xC0 ≠ 0x80)
    ∧ ∀ b : Buffer, ((patch b) 6).val >>> 4 = 4 ∧ ((patch b) 8).val &&& 0xC0 = 0x40 := by
  refine ⟨⟨Uuid.ctor (patch zeroBuffer), by decide, by decide, by decide, by decide⟩, ?_⟩
  intro b
  rw [patch_six, patch_eight]
  exact ⟨version_byte_bits _, variant_byte_bits _⟩

/-- C2.  For every sixteen-byte value, `ToString` returns 36 characters;
those at positions 8, 13, 18 and 23 are `-` and each of the others is a
lowercase hexadecimal digit; the formatted text is shorter than the 37-byte
buffer, so the returned string is the whole of it. -/
theorem ToString_shape (u : Uuid) :
    u.ToString.1.length = 36
    ∧ (∀ i : Fin 36, ∃ c, u.ToString.1.data[i.val]? = some c ∧
        if i.val = 8 ∨ i.val = 13 ∨ i.val = 18 ∨ i.val = 23 then c = '-'
        else c ∈ lowerHexDigits)
    ∧ (formatUuid u.m_uuid).length < 37
    ∧ u.ToString.1 = String.mk (formatUuid u.m_uuid) := by
  have hd := ToString_fst u
  have hl := formatUuid_length u.m_uuid
  refine ⟨?_, ?_, ?_, hd⟩
  · rw [hd, String.length_mk, hl]
  · intro i
    rw [hd]
    simp only [formatUuid_eq]
    fin_cases i <;> simp [hexDigitChar_hi, hexDigitChar_lo]
  · omega


/-- C3.  `ToString` is the concatenation of `hex2` of the bytes in index
order, with a `-` after bytes 3, 5, 7 and 9; and `hex2` of 5 is `05`. -/
theorem ToString_eq_hex2 (u : Uuid) :
    u.ToString.1 = String.mk
      (hex2 (u.m_uuid 0) ++ hex2 (u.m_uuid 1) ++ hex2 (u.m_uuid 2) ++ hex2 (u.m_uuid 3)
        ++ ['-'] ++ hex2 (u.m_uuid 4) ++ hex2 (u.m_uuid 5)
        ++ ['-'] ++ hex2 (u.m_uuid 6) ++ hex2 (u.m_uuid 7)
        ++ ['-'] ++ hex2 (u.m_uuid 8) ++ hex2 (u.m_uuid 9)
        ++ ['-'] ++ hex2 (u.m_uuid 10) ++ hex2 (u.m_uuid 11) ++ hex2 (u.m_uuid 12)
        ++ hex2 (u.m_uuid 13) ++ hex2 (u.m_uuid 14) ++ hex2 (u.m_uuid 15))
    ∧ hex2 5 = ['0', '5'] := by
  refine ⟨?_, by decide⟩
  rw [ToString_fst]
  simp only [formatUuid, formatHex_eq_hex2]

/-- C4, at the failing input.  For the fill `00 11 ... ff` the string of the
created Uuid has `4` at index 14 and `4` at index 19; for every fill the
character at index 19 of the created Uuid is one of `4`, `5`, `6`, `7`. -/
theorem ToString_char19_example :
    (∃ u, CreateUuid (.posix 1 exampleFill) = .returned u
      ∧ u.ToString.1.data[14]? = some '4'
      ∧ u.ToString.1.data[19]? = some '4')
    ∧ ∀ b : Buffer, ∃ c, (Uuid.ctor (patch b)).ToString.1.data[19]? = some c
        ∧ c ∈ ['4', '5', '6', '7'] := by
  refine ⟨⟨Uuid.ctor (patch exampleFill), by decide, by decide, by decide⟩, ?_⟩
  intro b
  refine ⟨hexDigitChar (((patch b) 8).val / 16), ?_, ?_⟩
  · rw [ToString_fst]
    simp only [formatUuid_eq]
    simp [Uuid.ctor]
  · rw [patch_eight]
    exact variant_byte_char _

/-- C5.  With the raw entropy `00 11 22 33 44 55 66 77 88 99 aa bb cc dd ee ff`
`CreateUuid` returns a Uuid with byte 6 equal to `0x46` and byte 8 equal to
`0x48` whose string is `00112233-4455-4677-4899-aabbccddeeff`, on the POSIX
branch and on the Windows branch alike. -/
theorem CreateUuid_example :
    (∃ u, CreateUuid (.posix 1 exampleFill) = .returned u
      ∧ u.m_uuid 6 = 0x46 ∧ u.m_uuid 8 = 0x48
      ∧ u.ToString.1 = "00112233-4455-4677-4899-aabbccddeeff")
    ∧ CreateUuid (.windows .little exampleDraws) = CreateUuid (.posix 1 exampleFill) :=
  ⟨⟨Uuid.ctor (patch exampleFill), by decide, by decide, by decide, by decide⟩,
    by simp only [CreateUuid, fillLoop_exampleDraws]; decide⟩

/-- C6, counterexample.  With `RAND_bytes` returning 0 the caller of
`CreateUuid` does not receive `EntropyError::SourceFailed`: the call does not
come back at all. -/
theorem CreateUuid_failure_is_not_an_error_value :
    (CreateUuid (.posix 0 zeroBuffer)).toCaller ≠ some (.error EntropyError.SourceFailed)
    ∧ (CreateUuid (.posix 0 zeroBuffer)).returns = false := by
  constructor
  · intro h
    simp [CreateUuid, Outcome.toCaller] at h
  · simp [CreateUuid, Outcome.returns]

/-- C6, amended.  If `RAND_bytes` returns a value `<= 0`, `CreateUuid` ends in
`abort()`: control does not come back to the caller, the caller receives
neither a value nor an error, and no Uuid is produced, whatever the buffer
holds. -/
theorem CreateUuid_posix_failure_aborts (ret : Int) (written : Buffer) (h : ret ≤ 0) :
    CreateUuid (.posix ret written) = .aborted
    ∧ (CreateUuid (.posix ret written)).toCaller = none
    ∧ ∀ u, CreateUuid (.posix ret written) ≠ .returned u := by
  have ha : CreateUuid (.posix ret written) = .aborted := by
    simp [CreateUuid, h]
  refine ⟨ha, ?_, ?_⟩
  · rw [ha]; rfl
  · intro u hu
    rw [ha] at hu
    cases hu

theorem CreateUuid_posix_failure_aborts_witness :
    (-1 : Int) ≤ 0
    ∧ (CreateUuid (.posix (-1) exampleFill) = .aborted
      ∧ (CreateUuid (.posix (-1) exampleFill)).toCaller = none
      ∧ ∀ u, CreateUuid (.posix (-1) exampleFill) ≠ .returned u) :=
  ⟨by decide, CreateUuid_posix_failure_aborts (-1) exampleFill (by decide)⟩

/-- C7.  On the POSIX branch `CreateUuid` returns a Uuid exactly when
`RAND_bytes` returns a value `> 0`, and aborts exactly when it returns a
value `<= 0`; on a configured platform an abort only happens there; and the
steps after the fill always return the patched buffer as a Uuid. -/
theorem CreateUuid_fails_only_on_entropy_failure :
    (∀ (ret : Int) (written : Buffer),
      ((∃ u, CreateUuid (.posix ret written) = .returned u) ↔ 0 < ret)
      ∧ (CreateUuid (.posix ret written) = .aborted ↔ ret ≤ 0))
    ∧ (∀ env : Env, env.configured = true → CreateUuid env = .aborted →
        ∃ ret written, env = .posix ret written ∧ ret ≤ 0)
    ∧ (∀ b : Buffer, finishUuid b = .returned (Uuid.ctor (patch b))) := by
  refine ⟨?_, ?_, fun _ => rfl⟩
  · intro ret written
    by_cases h : ret ≤ 0
    · have hn : ¬ 0 < ret := by omega
      simp [CreateUuid, h, hn]
    · have hp : 0 < ret := by omega
      simp [CreateUuid, h, hp, finishUuid]
  · intro env hc ha
    cases env with
    | windows order rd => simp [CreateUuid, finishUuid] at ha
    | posix ret written =>
      refine ⟨ret, written, rfl, ?_⟩
      by_cases h : ret ≤ 0
      · exact h
      · simp [CreateUuid, h, finishUuid] at ha
    | unconfigured => simp [Env.configured] at hc

theorem CreateUuid_fails_only_on_entropy_failure_witness :
    (∃ u, CreateUuid (.posix 1 exampleFill) = .returned u)
    ∧ CreateUuid (.posix (-7) exampleFill) = .aborted
    ∧ ∃ ret written, Env.posix 0 zeroBuffer = .posix ret written ∧ ret ≤ 0 :=
  ⟨(CreateUuid_fails_only_on_entropy_failure.1 1 exampleFill).1.mpr (by decide),
    (CreateUuid_fails_only_on_entropy_failure.1 (-7) exampleFill).2.mpr (by decide),
    CreateUuid_fails_only_on_entropy_failure.2.1 (.posix 0 zeroBuffer) rfl
      (by simp [CreateUuid])⟩

/-- C8, counterexample.  With neither platform macro defined there is a
run-time call of `CreateUuid` that fails for lack of a backend: the function
is built with `abort()` as its fill step, and the call aborts. -/
theorem CreateUuid_unconfigured_fails_at_run_time :
    Env.unconfigured.configured = false
    ∧ (CreateUuid .unconfigured).returns = false
    ∧ (CreateUuid .unconfigured).toCaller = none :=
  ⟨rfl, rfl, rfl⟩

/-- C8, amended.  On a target with no configured secure-random facility the
failure is a run-time one: every call of `CreateUuid` ends in `abort()` and
returns no Uuid. -/
theorem CreateUuid_unconfigured_aborts (env : Env) (h : env.configured = false) :
    CreateUuid env = .aborted ∧ ∀ u, CreateUuid env ≠ .returned u := by
  cases env with
  | windows order rd => simp [Env.configured] at h
  | posix ret written => simp [Env.configured] at h
  | unconfigured =>
    refine ⟨rfl, ?_⟩
    intro u hu
    simp [CreateUuid] at hu

theorem CreateUuid_unconfigured_aborts_witness :
    Env.unconfigured.configured = false
    ∧ (CreateUuid .unconfigured = .aborted ∧ ∀ u, CreateUuid .unconfigured ≠ .returned u) :=
  ⟨rfl, CreateUuid_unconfigured_aborts .unconfigured rfl⟩

/-- C9, at the failing input.  The value `00000000-0000-4000-8000-000000000000`
has version nibble `0100` and variant bits `10`, yet no entropy buffer
patches to it (not 64 of them); and the all-zero buffer patches to a value
whose byte 8 has top bits `01`, outside the set of the claim. -/
theorem patch_misses_rfc4122_value :
    ((rfc4122Value 6).val >>> 4 = 4 ∧ (rfc4122Value 8).val &&& 0xC0 = 0x80)
    ∧ Fintype.card {e : Buffer // patch e = rfc4122Value} = 0
    ∧ ((patch zeroBuffer) 8).val &&& 0xC0 = 0x40 := by
  refine ⟨by decide, ?_, by decide⟩
  rw [Fintype.card_eq_zero_iff]
  refine ⟨fun e => ?_⟩
  have h8 : ((patch e.1) 8).val &&& 0xC0 = 0x40 := by
    rw [patch_eight]; exact variant_byte_bits _
  rw [e.2] at h8
  revert h8
  decide

/-- C10.  `ToString` leaves the object as it found it, and a second call on
the object returns the same string as the first. -/
theorem ToString_pure (u : Uuid) :
    u.ToString.2 = u
    ∧ u.ToString.2.m_uuid = u.m_uuid
    ∧ u.ToString.2.ToString.1 = u.ToString.1 :=
  ⟨rfl, rfl, rfl⟩

/-- C11.  The patch changes nothing but the fixed fields: when `CreateUuid`
returns `u` after the entropy fill `e`, `u[i] = e[i]` for every `i` other
than 6 and 8, the low nibble of `u[6]` is that of `e[6]`, and the low six
bits of `u[8]` are those of `e[8]`. -/
theorem CreateUuid_frame (env : Env) (u : Uuid) (h : CreateUuid env = .returned u) :
    (∀ i : Fin UuidSize, i ≠ 6 → i ≠ 8 → u.m_uuid i = env.filled i)
    ∧ (u.m_uuid 6).val &&& 0xF = (env.filled 6).val &&& 0xF
    ∧ (u.m_uuid 8).val &&& 0x3F = (env.filled 8).val &&& 0x3F := by
  rw [CreateUuid_returned_filled env u h]
  refine ⟨fun i h6 h8 => patch_other _ i h6 h8, ?_, ?_⟩
  · rw [patch_six]; exact version_byte_low _
  · rw [patch_eight]; exact variant_byte_low _

theorem CreateUuid_frame_witness :
    CreateUuid (.posix 1 exampleFill) = .returned (Uuid.ctor (patch exampleFill))
    ∧ ((∀ i : Fin UuidSize, i ≠ 6 → i ≠ 8 →
          (Uuid.ctor (patch exampleFill)).m_uuid i = (Env.posix 1 exampleFill).filled i)
      ∧ ((Uuid.ctor (patch exampleFill)).m_uuid 6).val &&& 0xF
          = ((Env.posix 1 exampleFill).filled 6).val &&& 0xF
      ∧ ((Uuid.ctor (patch exampleFill)).m_uuid 8).val &&& 0x3F
          = ((Env.posix 1 exampleFill).filled 8).val &&& 0x3F) :=
  ⟨by decide,
    CreateUuid_frame (.posix 1 exampleFill) (Uuid.ctor (patch exampleFill)) (by decide)⟩

/-- C12.  For every 8-bit value the variant patch of the code,
`(byte8 | 0x40) & 0x7F`, equals the patch of the specification,
`(byte8 AND 0x7F) OR 0x40`; so byte 8 of every patched buffer is the
specified one; the result has bit 7 clear, bit 6 set and bits 0-5 kept. -/
theorem variant_patch_eq_spec :
    (∀ x : uint8_t, toU8 ((x.val ||| ReservedRFC4122.val) &&& 0x7F) = specVariantPatch x)
    ∧ (∀ b : Buffer, patch b 8 = specVariantPatch (b 8))
    ∧ (∀ x : uint8_t,
        (toU8 ((x.val ||| ReservedRFC4122.val) &&& 0x7F)).val &&& 0x80 = 0
        ∧ (toU8 ((x.val ||| ReservedRFC4122.val) &&& 0x7F)).val &&& 0x40 = 0x40
        ∧ (toU8 ((x.val ||| ReservedRFC4122.val) &&& 0x7F)).val &&& 0x3F = x.val &&& 0x3F)
    ∧ (∀ x : uint8_t,
        (specVariantPatch x).val &&& 0x80 = 0
        ∧ (specVariantPatch x).val &&& 0x40 = 0x40
        ∧ (specVariantPatch x).val &&& 0x3F = x.val &&& 0x3F) := by
  refine ⟨variant_byte_eq_spec, ?_, ?_, specVariantPatch_bits⟩
  · intro b
    rw [patch_eight]; exact variant_byte_eq_spec _
  · intro x
    rw [variant_byte_eq_spec]; exact specVariantPatch_bits x

/-- C13.  With no backend configured `CreateUuid` aborts and returns no
Uuid; on the POSIX branch, when `RAND_bytes` returns a value `<= 0`, it
aborts and returns no Uuid whatever the buffer holds (still zero, or partly
written). -/
theorem CreateUuid_no_fallback :
    (CreateUuid .unconfigured = .aborted ∧ ∀ u, CreateUuid .unconfigured ≠ .returned u)
    ∧ (∀ (ret : Int) (written : Buffer), ret ≤ 0 →
        CreateUuid (.posix ret written) = .aborted
        ∧ ∀ u, CreateUuid (.posix ret written) ≠ .returned u) := by
  refine ⟨⟨rfl, ?_⟩, ?_⟩
  · intro u hu
    simp [CreateUuid] at hu
  · intro ret written hret
    have ha : CreateUuid (.posix ret written) = .aborted := by
      simp [CreateUuid, hret]
    refine ⟨ha, ?_⟩
    intro u hu
    rw [ha] at hu
    cases hu

theorem CreateUuid_no_fallback_witness :
    (CreateUuid (.posix 0 zeroBuffer) = .aborted
      ∧ ∀ u, CreateUuid (.posix 0 zeroBuffer) ≠ .returned u)
    ∧ (CreateUuid (.posix (-1) (bufferOfList [0xde, 0xad, 0xbe])) = .aborted
      ∧ ∀ u, CreateUuid (.posix (-1) (bufferOfList [0xde, 0xad, 0xbe])) ≠ .returned u) :=
  ⟨CreateUuid_no_fallback.2 0 zeroBuffer (by decide),
    CreateUuid_no_fallback.2 (-1) (bufferOfList [0xde, 0xad, 0xbe]) (by decide)⟩

/-- C14.  On the Windows branch the fill loop, started on any buffer, exits
after exactly four calls of `rd()` and has then stored to each of the indices
0..15 exactly once, in order.  Byte `4k + j` of the buffer before the patch
is byte `j` of the 32-bit draw `k` in the memory order of the machine, that
is `(x >> 8j) & 0xFF` on a little-endian and `(x >> 8(3 - j)) & 0xFF` on a
big-endian machine for `x` the draw, so the four bytes put together give the
draw back.  Every byte of the returned Uuid other than bytes 6 and 8 is the
byte of the filled buffer. -/
theorem fillLoop_four_draws (rd : Nat → Nat) (b : Buffer) :
    (∀ order : ByteOrder,
      (fillLoop order rd 0 { uuid := b, draws := 0, stores := [] }).draws = 4
      ∧ (fillLoop order rd 0 { uuid := b, draws := 0, stores := [] }).stores
          = [0, 1, 2, 3, 4, 5, 6, 7, 8, 9, 10, 11, 12, 13, 14, 15]
      ∧ ∀ p : Fin 16,
          (fillLoop order rd 0 { uuid := b, draws := 0, stores := [] }).stores.count p.val = 1)
    ∧ (∀ k j : Fin 4,
        ((fillLoop .little rd 0 { uuid := b, draws := 0, stores := [] }).uuid
            (⟨4 * k.val + j.val, by omega⟩ : Fin 16)).val
          = rd k.val % 2 ^ 32 / 2 ^ (8 * j.val) % 256)
    ∧ (∀ k j : Fin 4,
        ((fillLoop .big rd 0 { uuid := b, draws := 0, stores := [] }).uuid
            (⟨4 * k.val + j.val, by omega⟩ : Fin 16)).val
          = rd k.val % 2 ^ 32 / 2 ^ (8 * (3 - j.val)) % 256)
    ∧ (∀ k : Fin 4,
        ((fillLoop .little rd 0 { uuid := b, draws := 0, stores := [] }).uuid
            (⟨4 * k.val, by omega⟩ : Fin 16)).val
          + 2 ^ 8 * ((fillLoop .little rd 0 { uuid := b, draws := 0, stores := [] }).uuid
            (⟨4 * k.val + 1, by omega⟩ : Fin 16)).val
          + 2 ^ 16 * ((fillLoop .little rd 0 { uuid := b, draws := 0, stores := [] }).uuid
            (⟨4 * k.val + 2, by omega⟩ : Fin 16)).val
          + 2 ^ 24 * ((fillLoop .little rd 0 { uuid := b, draws := 0, stores := [] }).uuid
            (⟨4 * k.val + 3, by omega⟩ : Fin 16)).val
          = rd k.val % 2 ^ 32)
    ∧ (∀ k : Fin 4,
        2 ^ 24 * ((fillLoop .big rd 0 { uuid := b, draws := 0, stores := [] }).uuid
            (⟨4 * k.val, by omega⟩ : Fin 16)).val
          + 2 ^ 16 * ((fillLoop .big rd 0 { uuid := b, draws := 0, stores := [] }).uuid
            (⟨4 * k.val + 1, by omega⟩ : Fin 16)).val
          + 2 ^ 8 * ((fillLoop .big rd 0 { uuid := b, draws := 0, stores := [] }).uuid
            (⟨4 * k.val + 2, by omega⟩ : Fin 16)).val
          + ((fillLoop .big rd 0 { uuid := b, draws := 0, stores := [] }).uuid
            (⟨4 * k.val + 3, by omega⟩ : Fin 16)).val
          = rd k.val % 2 ^ 32)
    ∧ (∀ order : ByteOrder, ∃ u, CreateUuid (.windows order rd) = .returned u
        ∧ ∀ i : Fin UuidSize, i ≠ 6 → i ≠ 8 →
            u.m_uuid i
              = (fillLoop order rd 0 { uuid := zeroBuffer, draws := 0, stores := [] }).uuid i) := by
  refine ⟨?_, ?_, ?_, ?_, ?_, ?_⟩
  · intro order
    rw [fillLoop_from_zero]
    refine ⟨rfl, rfl, ?_⟩
    show ∀ p : Fin 16,
      List.count p.val [0, 1, 2, 3, 4, 5, 6, 7, 8, 9, 10, 11, 12, 13, 14, 15] = 1
    decide
  · intro k j
    rw [fillLoop_from_zero]
    have hk : (4 * k.val + j.val) / 4 = k.val := by omega
    have hj : (4 * k.val + j.val) % 4 = j.val := by omega
    simp only [hk, hj, byteOfU32_little]
  · intro k j
    rw [fillLoop_from_zero]
    have hk : (4 * k.val + j.val) / 4 = k.val := by omega
    have hj : (4 * k.val + j.val) % 4 = j.val := by omega
    simp only [hk, hj, byteOfU32_big]
  · intro k
    rw [fillLoop_from_zero]
    have h0 : 4 * k.val / 4 = k.val := by omega
    have h1 : (4 * k.val + 1) / 4 = k.val := by omega
    have h2 : (4 * k.val + 2) / 4 = k.val := by omega
    have h3 : (4 * k.val + 3) / 4 = k.val := by omega
    have m0 : 4 * k.val % 4 = 0 := by omega
    have m1 : (4 * k.val + 1) % 4 = 1 := by omega
    have m2 : (4 * k.val + 2) % 4 = 2 := by omega
    have m3 : (4 * k.val + 3) % 4 = 3 := by omega
    simp only [h0, h1, h2, h3, m0, m1, m2, m3, byteOfU32_little]
    exact u32_bytes_little _ (Nat.mod_lt _ (by decide))
  · intro k
    rw [fillLoop_from_zero]
    have h0 : 4 * k.val / 4 = k.val := by omega
    have h1 : (4 * k.val + 1) / 4 = k.val := by omega
    have h2 : (4 * k.val + 2) / 4 = k.val := by omega
    have h3 : (4 * k.val + 3) / 4 = k.val := by omega
    have m0 : 4 * k.val % 4 = 0 := by omega
    have m1 : (4 * k.val + 1) % 4 = 1 := by omega
    have m2 : (4 * k.val + 2) % 4 = 2 := by omega
    have m3 : (4 * k.val + 3) % 4 = 3 := by omega
    simp only [h0, h1, h2, h3, m0, m1, m2, m3, byteOfU32_big]
    exact u32_bytes_big _ (Nat.mod_lt _ (by decide))
  · intro order
    refine ⟨Uuid.ctor (patch
      (fillLoop order rd 0 { uuid := zeroBuffer, draws := 0, stores := [] }).uuid), rfl, ?_⟩
    intro i h6 h8
    exact patch_other _ i h6 h8

theorem fillLoop_four_draws_witness :
    (fillLoop .little exampleDraws 0 { uuid := zeroBuffer, draws := 0, stores := [] }).draws = 4
    ∧ ((fillLoop .little exampleDraws 0 { uuid := zeroBuffer, draws := 0, stores := [] }).uuid
          (⟨4 * 2 + 1, by decide⟩ : Fin 16)).val
        = exampleDraws 2 % 2 ^ 32 / 2 ^ (8 * 1) % 256
    ∧ exampleDraws 2 % 2 ^ 32 / 2 ^ (8 * 1) % 256 = 0x99
    ∧ ((fillLoop .big exampleDraws 0 { uuid := zeroBuffer, draws := 0, stores := [] }).uuid
          (⟨4 * 2 + 1, by decide⟩ : Fin 16)).val
        = exampleDraws 2 % 2 ^ 32 / 2 ^ (8 * (3 - 1)) % 256
    ∧ exampleDraws 2 % 2 ^ 32 / 2 ^ (8 * (3 - 1)) % 256 = 0xaa :=
  ⟨((fillLoop_four_draws exampleDraws zeroBuffer).1 .little).1,
    (fillLoop_four_draws exampleDraws zeroBuffer).2.1 2 1,
    by decide,
    (fillLoop_four_draws exampleDraws zeroBuffer).2.2.1 2 1,
    by decide⟩

/-- C15.  `ToString` is injective: two Uuids with the same string have the
same sixteen bytes. -/
theorem ToString_injective (a b : Uuid) (h : a.ToString.1 = b.ToString.1) : a = b := by
  rw [ToString_fst, ToString_fst] at h
  have hm := formatUuid_inj a.m_uuid b.m_uuid (congrArg String.data h)
  cases a
  cases b
  simp only [Uuid.mk.injEq]
  exact hm

theorem ToString_injective_witness :
    (Uuid.ctor exampleFill).ToString.1 = (Uuid.mk exampleFill).ToString.1
    ∧ Uuid.ctor exampleFill = Uuid.mk exampleFill :=
  ⟨by decide, ToString_injective (Uuid.ctor exampleFill) (Uuid.mk exampleFill) (by decide)⟩

/-- C16, at the failing input.  The buffer `00000000-0000-4000-8000-000000000000`
has `b[6] >> 4 == 4` and `b[8] & 0xC0 == 0x80`, yet the patch changes it
(byte 8 becomes `0x40`).  The patch is idempotent on every buffer, and its
fixed points are the buffers with `b[6] >> 4 == 4` and `b[8] & 0xC0 == 0x40`. -/
theorem patch_moves_rfc4122_value :
    ((rfc4122Value 6).val >>> 4 = 4 ∧ (rfc4122Value 8).val &&& 0xC0 = 0x80)
    ∧ patch rfc4122Value ≠ rfc4122Value
    ∧ patch rfc4122Value 8 = 0x40
    ∧ (∀ b : Buffer, patch (patch b) = patch b)
    ∧ (∀ b : Buffer, patch b = b ↔ (b 6).val >>> 4 = 4 ∧ (b 8).val &&& 0xC0 = 0x40) := by
  refine ⟨by decide, ?_, by decide, patch_idem, patch_fixed_iff⟩
  intro h
  have h8 := congrFun h 8
  revert h8
  decide

end Azure.Core
